import Mathlib

/-!
Verification of the Modbus RTU web serial logger core.

Shallow embedding of the protocol and acquisition pipeline of the
repository: frame construction and CRC16 validation
(`src/modbus/webserialClient.ts`), the write-then-read exchange with its
1000 ms timeout loop, register decoding, the polynomial calibration
transform (`src/utils/calibration.ts`), and the bounded data store with
its two retention policies (`src/App.tsx`, `src/utils/dataStorage.ts`).

Bytes are modeled as `Nat` with explicit `% 256` where the JavaScript
runtime truncates (`Buffer.from` / `Uint8Array`), 16-bit quantities as
`Nat` with explicit `% 65536`, JavaScript numbers holding register
values as `Int` (two's-complement reads) or `ℚ` (calibration
arithmetic).  Asynchronous byte arrival is modeled as an explicit list
of read events carrying the elapsed time observed when each
`reader.read()` resolves.
-/

namespace ModbusLogger

/-! ### CRC16 (Modbus variant)

The repository computes CRCs with the `modbus-serial/utils/crc16`
helper.  That helper is the standard Modbus CRC16 the spec describes in
section 4.1: accumulator starts at 0xFFFF; each input byte is XORed into
the accumulator; then 8 rounds of: shift right one bit, XORing with
0xA001 when the shifted-out bit was set. -/

/-- One shift round of the Modbus CRC16: `odd = crc & 1; crc >>= 1; if
(odd) crc ^= 0xA001`. -/
def crcRound (crc : Nat) : Nat :=
  let odd := crc &&& 1
  let c := crc >>> 1
  if odd = 1 then c ^^^ 0xA001 else c

/-- Folding one input byte into the CRC accumulator: XOR the byte into
the low bits, then run 8 shift rounds. -/
def crcByte (crc b : Nat) : Nat :=
  Nat.repeat crcRound 8 (crc ^^^ b)

/-- The Modbus CRC16 of a byte sequence, accumulator initialised to
0xFFFF. -/
def crc16 (bytes : List Nat) : Nat :=
  bytes.foldl crcByte 0xFFFF

/-! ### Frame codec (`webserialClient.buildFrame` / the validation tail
of `transfer`) -/

/-- `WebSerialModbusClient.buildFrame`: the frame array is
`[slaveId, functionCode, ...payload]`; `Buffer.from` / `new Uint8Array`
truncate every entry to a byte (hence the `% 256` map); the CRC is
computed over those truncated bytes and appended low byte then high
byte (`crc & 0xff`, `(crc >> 8) & 0xff`). -/
def buildFrame (slaveId functionCode : Nat) (payload : List Nat) : List Nat :=
  let frame := ([slaveId, functionCode] ++ payload).map (fun b => b % 256)
  let crc := crc16 frame
  frame ++ [crc &&& 255, (crc >>> 8) &&& 255]

/-- The failure modes of the client (section 7 taxonomy plus the two
outcomes of the read loop that the taxonomy does not name: a stream
reporting `done`, and a read that never resolves). -/
inductive MbError where
  | notConnected
  | timeout
  | streamClosed
  | blocked
  | shortResponse
  | crcMismatch
  | precondition
  | rangeError
deriving DecidableEq

/-- One resolution of `reader.read()`: the elapsed time (ms since the
exchange started) at which the read resolved, and the delivered chunk
(`none` models `done: true`). -/
structure ReadEvent where
  time : Nat
  chunk : Option (List Nat)

/-- Possible outcomes of the byte-assembly loop in `transfer`. -/
inductive ReadOutcome where
  | complete (bytes : List Nat)
  | timeout
  | streamClosed
  | blocked
deriving DecidableEq

/-- The read loop of `transfer` (lines 115–135): while the buffer holds
fewer than `expectedLength` bytes, check the 1000 ms deadline
(`Date.now() - startTime > timeout`, evaluated with the time at which
the previous read resolved), then await the next read; `done` aborts;
otherwise the chunk is appended.  On exit the buffer is sliced to
`expectedLength`.  An exhausted event list while bytes are still
missing models a `reader.read()` that never resolves. -/
def readLoop (expected : Nat) : List ReadEvent → Nat → List Nat → ReadOutcome
  | evs, tNow, buffer =>
    if expected ≤ buffer.length then
      .complete (buffer.take expected)
    else if 1000 < tNow then
      .timeout
    else
      match evs with
      | [] => .blocked
      | e :: rest =>
        match e.chunk with
        | none => .streamClosed
        | some bytes => readLoop expected rest e.time (buffer ++ bytes)

/-- The CRC validation tail of `transfer` (lines 138–150): fewer than 3
bytes is "Response too short for CRC validation"; otherwise
`dataWithoutCrc = responseArray.slice(0, -2)` and the trailing
little-endian CRC (`resp[n-2] | (resp[n-1] << 8)`) must match the CRC
recomputed over `dataWithoutCrc`.  On success the whole response array
is returned (the `DataView` handed to the callers). -/
def validateResponse (resp : List Nat) : Except MbError (List Nat) :=
  if resp.length < 3 then .error .shortResponse
  else
    let dataWithoutCrc := resp.take (resp.length - 2)
    let lo := resp.getD (resp.length - 2) 0
    let hi := resp.getD (resp.length - 1) 0
    let receivedCrc := lo ||| (hi <<< 8)
    let calculatedCrc := crc16 dataWithoutCrc
    if receivedCrc ≠ calculatedCrc then .error .crcMismatch
    else .ok resp

/-- `WebSerialModbusClient.transfer`: `ensureReady` (device connected),
write the frame, run the read loop, then validate the CRC.  The written
request `frame` does not influence the modeled read side; the device's
behaviour is the event list. -/
def transfer (connected : Bool) (frame : List Nat) (expected : Nat)
    (evs : List ReadEvent) : Except MbError (List Nat) :=
  if connected = false then .error .notConnected
  else
    match readLoop expected evs 0 [] with
    | .complete resp => validateResponse resp
    | .timeout => .error .timeout
    | .streamClosed => .error .streamClosed
    | .blocked => .error .blocked

/-- `DataView.getInt16(off, false)`: big-endian signed 16-bit read;
throws a `RangeError` when fewer than two bytes remain at `off`. -/
def getInt16 (resp : List Nat) (off : Nat) : Except MbError Int :=
  if off + 1 < resp.length then
    let u := resp.getD off 0 * 256 + resp.getD (off + 1) 0
    .ok (if u < 32768 then (u : Int) else (u : Int) - 65536)
  else .error .rangeError

/-- `WebSerialModbusClient.readInputRegisters`: function-code-4 frame
with payload `[start >> 8, start & 0xff, count >> 8, count & 0xff]`,
expected response length `5 + count * 2`; the number of decoded values
is driven by the response's byte-count field (`view.getUint8(2)`): the
JS loop `for (i = 0; i < byteCount / 2; i++)` (exact division) runs
`⌈byteCount / 2⌉` times, reading a big-endian two's-complement 16-bit
value at offset `3 + 2 * i` each time. -/
def readInputRegisters (slaveId : Nat) (connected : Bool) (start count : Nat)
    (evs : List ReadEvent) : Except MbError (List Int) := do
  let payload := [start >>> 8, start &&& 255, count >>> 8, count &&& 255]
  let frame := buildFrame slaveId 4 payload
  let expected := 5 + count * 2
  let view ← transfer connected frame expected evs
  let byteCount := view.getD 2 0
  (List.range ((byteCount + 1) / 2)).mapM (fun i => getInt16 view (3 + 2 * i))

/-- The guards and frame construction of
`WebSerialModbusClient.writeMultipleHoldingRegisters` (lines 218–243):
an empty list and more than 123 registers are rejected before any frame
is built or written; otherwise the function-code-16 payload is
`[start >> 8, start & 0xff, count >> 8, count & 0xff, byteCount]`
followed by each value masked to `value & 0xffff` (two's-complement
AND, `Int.land`) and split into two big-endian bytes, and the result is
the frame the method hands to the transport
(`this.transfer(frame, 8)`, which starts with `writer.write(frame)`). -/
def writeMultipleRequest (slaveId : Nat) (start : Nat) (values : List Int) :
    Except MbError (List Nat) :=
  if values.length = 0 then .error .precondition
  else if 123 < values.length then .error .precondition
  else
    let count := values.length
    let byteCount := count * 2
    let payload := [start >>> 8, start &&& 255, count >>> 8, count &&& 255, byteCount]
      ++ values.flatMap (fun value =>
          let unsigned := (Int.land value 65535).toNat
          [unsigned >>> 8, unsigned &&& 255])
    .ok (buildFrame slaveId 16 payload)

/-- `WebSerialModbusClient.writeMultipleHoldingRegisters`: the guarded
frame construction above, followed by the 8-byte write-then-read
exchange of that frame; a precondition failure propagates before any
I/O. -/
def writeMultipleHoldingRegisters (slaveId : Nat) (connected : Bool) (start : Nat)
    (values : List Int) (evs : List ReadEvent) : Except MbError (List Nat) :=
  match writeMultipleRequest slaveId start values with
  | .error e => .error e
  | .ok frame => transfer connected frame 8 evs

instance {ε α : Type} [DecidableEq ε] [DecidableEq α] : DecidableEq (Except ε α) := fun x y =>
  match x, y with
  | .ok a, .ok b =>
      if h : a = b then isTrue (by rw [h])
      else isFalse (fun he => h (Except.ok.inj he))
  | .ok _, .error _ => isFalse (fun he => Except.noConfusion he)
  | .error _, .ok _ => isFalse (fun he => Except.noConfusion he)
  | .error e, .error e2 =>
      if h : e = e2 then isTrue (by rw [h])
      else isFalse (fun he => h (Except.error.inj he))

/-- Total number of bytes a device delivers over a read-event list. -/
def totalReadBytes (evs : List ReadEvent) : Nat :=
  (evs.map (fun e => (e.chunk.getD []).length)).sum

/-- Big-endian two's-complement decoding of two bytes, as
`DataView.getInt16(·, false)` interprets them. -/
def int16OfBytes (hi lo : Nat) : Int :=
  let u := hi * 256 + lo
  if u < 32768 then (u : Int) else (u : Int) - 65536

/-- Modelled from the spec (data model, RegisterValue): each 2-byte
big-endian group of the data region becomes one signed 16-bit value. -/
def decodeRegisters (data : List Nat) (count : Nat) : List Int :=
  (List.range count).map (fun i => int16OfBytes (data.getD (2 * i) 0) (data.getD (2 * i + 1) 0))

/-- Modelled from the spec (section 6 wire-protocol table and 4.3): the
function-code-16 request payload
`startHi, startLo, countHi, countLo, byteCount, data...` where each
value is reduced to its unsigned 16-bit residue and sent as two
big-endian bytes. -/
def specWriteMultiplePayload (start : Nat) (values : List Int) : List Nat :=
  [start / 256, start % 256, values.length / 256, values.length % 256, values.length * 2]
    ++ values.flatMap (fun value =>
        let u := (value % 65536).toNat
        [u / 256, u % 256])

/-! ### Calibration engine (`src/utils/calibration.ts`)

JavaScript numeric arithmetic on calibration coefficients and raw
values is modeled over `ℚ`. -/

/-- Per-channel calibration coefficients for
`physical = a·raw² + b·raw + c`. -/
structure AiCalibration where
  a : ℚ
  b : ℚ
  c : ℚ
deriving DecidableEq

/-- `defaultAiCalibration`: the identity default `{a: 0, b: 1, c: 0}`. -/
def defaultAiCalibration : AiCalibration := ⟨0, 1, 0⟩

/-- `aiToPhysical(raw, cal) = cal.a * raw * raw + cal.b * raw + cal.c`. -/
def aiToPhysical (raw : ℚ) (cal : AiCalibration) : ℚ :=
  cal.a * raw * raw + cal.b * raw + cal.c

/-- `loadAiCalibration(channels)`, parameterised by the result of
`readJsonCookie`: `none` models a missing cookie, unparsable JSON, or a
parsed value that is not an array (`!Array.isArray(raw)`) — every
channel gets the default.  Otherwise each channel takes `raw[idx] ??
defaultAiCalibration()`, where an entry `none` models an absent or
nullish element. -/
def loadAiCalibration (channels : Nat) (raw : Option (List (Option AiCalibration))) :
    List AiCalibration :=
  match raw with
  | none => List.replicate channels defaultAiCalibration
  | some arr => (List.range channels).map (fun idx => (arr.getD idx none).getD defaultAiCalibration)

/-- Modelled from the spec (section 4.4): "for each channel index in
`[0, channelCount)`, use the persisted entry if present" — the persisted
entry at index `i`, when the persisted set exists and holds one there. -/
def persistedAt (raw : Option (List (Option AiCalibration))) (i : Nat) : Option AiCalibration :=
  raw.bind (fun arr => arr.getD i none)

/-! ### Data store retention (`src/utils/dataStorage.ts`, `src/App.tsx`)

The IndexedDB store is modeled as a list in insertion order (successive
`Date.now()` timestamps are non-decreasing, so the timestamp-index
cursor order used by `keepLatestPoints` coincides with insertion
order). -/

/-- `MAX_POINTS_IN_MEMORY` (`dataStorage.ts` line 9). -/
def MAX_POINTS_IN_MEMORY : Nat := 1024

/-- `DataStorage.keepLatestPoints(maxPoints)`: when the count exceeds
`maxPoints`, the cursor walk deletes the oldest `count - maxPoints`
points; otherwise nothing is deleted. -/
def keepLatestPoints (maxPoints : Nat) (store : List α) : List α :=
  if store.length ≤ maxPoints then store
  else store.drop (store.length - maxPoints)

/-- One `updateDataHistory` call: `addDataPoint` appends the new point;
when no TSV writer is active (`recording = false`),
`keepLatestPoints(MAX_POINTS_IN_MEMORY)` trims the store. -/
def updateDataHistoryStep (recording : Bool) (store : List α) (p : α) : List α :=
  let appended := store ++ [p]
  if recording = false then keepLatestPoints MAX_POINTS_IN_MEMORY appended
  else appended

/-- The store contents after appending a sequence of points one by one
to an initially empty store while not recording (retention policy B). -/
def runPolicyB (pts : List α) : List α :=
  pts.foldl (fun store p => updateDataHistoryStep false store p) []

/-- `updateChartData`: with no TSV writer all stored points are
displayed; with recording active, a store at or below
`MAX_POINTS_IN_MEMORY` is displayed whole, a longer one is decimated by
`stride = Math.ceil(length / MAX_POINTS_IN_MEMORY)` via
`filter((_, idx) => idx % stride === 0)`. -/
def updateChartData (recording : Bool) (allPoints : List α) : List α :=
  if recording = false then allPoints
  else if allPoints.length ≤ MAX_POINTS_IN_MEMORY then allPoints
  else
    let stride := (allPoints.length + (MAX_POINTS_IN_MEMORY - 1)) / MAX_POINTS_IN_MEMORY
    ((allPoints.enum.filter fun p => p.1 % stride == 0).map Prod.snd)

/-- Modelled from the spec (section 4.6): "retain every `stride`-th
point" — keep the head, then skip `stride - 1` points, repeatedly. -/
def takeEvery (stride : Nat) : List α → List α
  | [] => []
  | a :: t => a :: takeEvery stride (t.drop (stride - 1))
termination_by l => l.length
decreasing_by
  simp only [List.length_cons, List.length_drop]
  omega

/-! ### Connection establishment (`webserialClient.connect`,
`App.handleConnect`)

The browser serial API is modeled by an oracle saying at which step, if
any, connection establishment fails.  The world tracks how many serial
ports are currently open; the app state tracks what `handleConnect`
leaves behind. -/

/-- Which step of `WebSerialModbusClient.connect` fails. -/
inductive ConnectEnv where
  | noSerialApi        -- `!this.serialApi`
  | requestPortFails   -- `requestPort()` rejects (e.g. user cancels)
  | openFails          -- `port.open(...)` rejects
  | streamsUnavailable -- open succeeds but `readable`/`writable` is null
  | success
deriving DecidableEq

/-- The fields of a `WebSerialModbusClient` relevant to connection
state: whether `this.port` is set (and whether that port is open), and
whether `this.reader` / `this.writer` are held. -/
structure ClientState where
  port : Option Bool
  reader : Bool
  writer : Bool
deriving DecidableEq

/-- The application-level connection state after `handleConnect`:
`client` is `clientRef.current`, `openPorts` counts serial ports the
browser still has open, `connected`/`acquiring` are the React flags,
and `failed` records whether the attempt threw. -/
structure ConnectResult where
  client : Option ClientState
  openPorts : Nat
  connected : Bool
  acquiring : Bool
  failed : Bool
deriving DecidableEq

/-- `WebSerialModbusClient.connect` on a fresh client (`this.port`
initially null, so the entry cleanup is a no-op): `requestPort` stores
the port closed; `open` marks it open; the `readable`/`writable` check
then either throws or hands out reader and writer.  Returns the client
state paired with the number of ports the step sequence left open, or
the same pair as an error. -/
def connectModel (env : ConnectEnv) : Except (ClientState × Nat) (ClientState × Nat) :=
  match env with
  | .noSerialApi => .error (⟨none, false, false⟩, 0)
  | .requestPortFails => .error (⟨none, false, false⟩, 0)
  | .openFails => .error (⟨some false, false, false⟩, 0)
  | .streamsUnavailable => .error (⟨some true, false, false⟩, 1)
  | .success => .ok (⟨some true, true, true⟩, 1)

/-- `App.handleConnect` starting from a disconnected app (no stored
client): a fresh client is constructed and `connect()` awaited; on
success it is stored and the flags set; on failure the catch block's
cleanup (`if (clientRef.current) ...`) finds `clientRef.current` still
null — the new client is only stored after `connect()` resolves — so
the failed client and whatever port state it holds are simply dropped,
and only the flags are reset. -/
def handleConnectModel (env : ConnectEnv) : ConnectResult :=
  match connectModel env with
  | .ok (c, ports) =>
      { client := some c, openPorts := ports, connected := true, acquiring := true,
        failed := false }
  | .error (_, ports) =>
      { client := none, openPorts := ports, connected := false, acquiring := false,
        failed := true }

/-! ### Bitwise helper lemmas -/

theorem and255_eq_mod (a : Nat) : a &&& 255 = a % 256 := by
  have h := Nat.and_pow_two_sub_one_eq_mod a 8
  norm_num at h
  exact h

theorem shiftRight8_eq_div (a : Nat) : a >>> 8 = a / 256 := by
  have h := Nat.shiftRight_eq_div_pow a 8
  norm_num at h
  exact h

theorem lor_low_high (lo hi : Nat) (h : lo < 256) : lo ||| (hi <<< 8) = lo + 256 * hi := by
  have hsh : hi <<< 8 = 2 ^ 8 * hi := by
    rw [Nat.shiftLeft_eq]; ring
  have hor := Nat.mul_add_lt_is_or (i := 8) (b := lo) (by norm_num [h] : lo < 2 ^ 8) hi
  rw [hsh, Nat.lor_comm, ← hor]
  norm_num
  omega

theorem xor_two_pow_sub_one : ∀ (n r : Nat), r < 2 ^ n → (2 ^ n - 1) ^^^ r = 2 ^ n - 1 - r := by
  intro n
  induction n with
  | zero =>
      intro r hr
      interval_cases r
      decide
  | succ k ih =>
      intro r hr
      have hpow : 2 ^ (k + 1) = 2 * 2 ^ k := by rw [Nat.pow_succ]; ring
      have hq : r / 2 < 2 ^ k := by omega
      have hdiv : ((2 ^ (k + 1) - 1) ^^^ r) / 2 = (2 ^ k - 1) ^^^ (r / 2) := by
        rw [Nat.xor_div_two]
        congr 1
        omega
      have hposk : 0 < 2 ^ k := Nat.pos_pow_of_pos k (by norm_num)
      have hmod1 : (2 ^ (k + 1) - 1) % 2 = 1 := by omega
      have hmod : ((2 ^ (k + 1) - 1) ^^^ r) % 2 = 1 - r % 2 := by
        rcases Nat.mod_two_eq_zero_or_one r with h0 | h1
        · have : ((2 ^ (k + 1) - 1) ^^^ r) % 2 = 1 := by
            rw [Nat.xor_mod_two_eq_one]
            omega
          omega
        · have hne : ¬ ((2 ^ (k + 1) - 1) ^^^ r) % 2 = 1 := by
            rw [Nat.xor_mod_two_eq_one]
            push_neg
            constructor <;> omega
          omega
      have hsplit := Nat.div_add_mod ((2 ^ (k + 1) - 1) ^^^ r) 2
      rw [hdiv] at hsplit
      rw [ih (r / 2) hq] at hsplit
      have hr2 := Nat.div_add_mod r 2
      omega

theorem ldiff_two_pow_sub_one (n m : Nat) :
    Nat.ldiff (2 ^ n - 1) m = 2 ^ n - 1 - m % 2 ^ n := by
  have hstep : Nat.ldiff (2 ^ n - 1) m = (2 ^ n - 1) ^^^ (m % 2 ^ n) := by
    apply Nat.eq_of_testBit_eq
    intro k
    rw [Nat.testBit_ldiff, Nat.testBit_xor, Nat.testBit_two_pow_sub_one,
      Nat.testBit_mod_two_pow]
    by_cases hk : k < n
    · simp [hk]
    · simp [hk]
  rw [hstep]
  exact xor_two_pow_sub_one n _ (Nat.mod_lt _ (Nat.pos_pow_of_pos n (by norm_num)))

theorem int_land_65535 (v : Int) : Int.land v 65535 = v % 65536 := by
  cases v with
  | ofNat m =>
      show Int.land (Int.ofNat m) (Int.ofNat 65535) = _
      rw [Int.land]
      have h1 : (65535 : Nat) = 2 ^ 16 - 1 := by norm_num
      rw [h1, Nat.and_pow_two_sub_one_eq_mod]
      have h2 : (2 : Nat) ^ 16 = 65536 := by norm_num
      rw [h2]
      simp only [Int.ofNat_eq_natCast]
      omega
  | negSucc m =>
      show Int.land (Int.negSucc m) (Int.ofNat 65535) = _
      rw [Int.land]
      have h1 : (65535 : Nat) = 2 ^ 16 - 1 := by norm_num
      rw [h1, ldiff_two_pow_sub_one]
      have h2 : (2 : Nat) ^ 16 = 65536 := by norm_num
      rw [h2]
      rw [Int.negSucc_eq]
      omega

/-! ### CRC16 bound -/

theorem crcRound_lt (crc : Nat) (h : crc < 65536) : crcRound crc < 65536 := by
  unfold crcRound
  dsimp only
  have hc : crc >>> 1 < 65536 := by
    rw [Nat.shiftRight_eq_div_pow]
    omega
  split
  · have : (65536 : Nat) = 2 ^ 16 := by norm_num
    rw [this] at hc ⊢
    exact Nat.xor_lt_two_pow hc (by norm_num)
  · exact hc

theorem repeat_crcRound_lt (n x : Nat) (h : x < 65536) :
    Nat.repeat crcRound n x < 65536 := by
  induction n with
  | zero => exact h
  | succ k ih => exact crcRound_lt _ ih

theorem crcByte_lt (crc b : Nat) (hc : crc < 65536) (hb : b < 65536) :
    crcByte crc b < 65536 := by
  unfold crcByte
  apply repeat_crcRound_lt
  have : (65536 : Nat) = 2 ^ 16 := by norm_num
  rw [this] at hc hb ⊢
  exact Nat.xor_lt_two_pow hc hb

theorem crc16_lt (bytes : List Nat) (h : ∀ b ∈ bytes, b < 65536) : crc16 bytes < 65536 := by
  unfold crc16
  suffices H : ∀ (l : List Nat) (acc : Nat), acc < 65536 → (∀ b ∈ l, b < 65536) →
      l.foldl crcByte acc < 65536 by
    exact H bytes 0xFFFF (by norm_num) h
  intro l
  induction l with
  | nil => intro acc ha _; simpa using ha
  | cons x xs ih =>
      intro acc ha hl
      simp only [List.foldl_cons]
      exact ih _ (crcByte_lt _ _ ha (hl x (by simp))) (fun b hb => hl b (by simp [hb]))

/-! ### CRC round trip -/

theorem validate_buildFrame (s f : Nat) (p : List Nat) :
    validateResponse (buildFrame s f p) = .ok (buildFrame s f p) := by
  unfold buildFrame validateResponse
  set pre := ([s, f] ++ p).map (fun b => b % 256) with hpre
  have hlenpre : pre.length = p.length + 2 := by simp [hpre]
  have hbytes : ∀ b ∈ pre, b < 65536 := by
    intro b hb
    rw [hpre] at hb
    obtain ⟨x, _, rfl⟩ := List.mem_map.mp hb
    omega
  set c := crc16 pre with hc
  have hclt : c < 65536 := crc16_lt pre hbytes
  have hframe : (pre ++ [c &&& 255, c >>> 8 &&& 255]).length = pre.length + 2 := by simp
  rw [hframe]
  have hnotshort : ¬ (pre.length + 2 < 3) := by omega
  rw [if_neg hnotshort]
  have htake : (pre ++ [c &&& 255, c >>> 8 &&& 255]).take (pre.length + 2 - 2) = pre := by
    have : pre.length + 2 - 2 = pre.length := by omega
    rw [this]
    exact List.take_left pre _
  have hlo : (pre ++ [c &&& 255, c >>> 8 &&& 255]).getD (pre.length + 2 - 2) 0 = c &&& 255 := by
    have h2 : pre.length + 2 - 2 = pre.length := by omega
    rw [h2]
    simp [List.getD_eq_getElem?_getD, List.getElem?_append_right (Nat.le_refl pre.length)]
  have hhi : (pre ++ [c &&& 255, c >>> 8 &&& 255]).getD (pre.length + 2 - 1) 0 =
      c >>> 8 &&& 255 := by
    have h2 : pre.length + 2 - 1 = pre.length + 1 := by omega
    rw [h2]
    simp [List.getD_eq_getElem?_getD,
      List.getElem?_append_right (Nat.le_add_right pre.length 1)]
  rw [htake, hlo, hhi]
  dsimp only
  have hrecv : (c &&& 255) ||| ((c >>> 8 &&& 255) <<< 8) = c := by
    rw [and255_eq_mod, shiftRight8_eq_div, and255_eq_mod]
    have hdiv : c / 256 % 256 = c / 256 := Nat.mod_eq_of_lt (by omega)
    rw [hdiv, lor_low_high _ _ (Nat.mod_lt _ (by norm_num))]
    omega
  rw [hrecv, ← hc]
  simp

theorem buildFrame_eq_of_bytes (s f : Nat) (p : List Nat)
    (hs : s < 256) (hf : f < 256) (hp : ∀ b ∈ p, b < 256) :
    buildFrame s f p =
      (s :: f :: p) ++ [crc16 (s :: f :: p) &&& 255, crc16 (s :: f :: p) >>> 8 &&& 255] := by
  have hid : ([s, f] ++ p).map (fun b => b % 256) = s :: f :: p := by
    have hmem : ∀ b ∈ [s, f] ++ p, (fun b => b % 256) b = id b := by
      intro b hb
      simp only [List.mem_append, List.mem_cons, List.mem_singleton] at hb
      have hblt : b < 256 := by
        rcases hb with (rfl | rfl | h) | h
        · exact hs
        · exact hf
        · cases h
        · exact hp b h
      simp [Nat.mod_eq_of_lt hblt]
    rw [List.map_congr_left hmem, List.map_id]
    rfl
  unfold buildFrame
  rw [hid]

/-! ### Claim C1 -/

/-- C1: for every slave address, function code and payload byte
sequence, the frame produced by `buildFrame` is
`[slaveAddress, functionCode, ...payload]` followed by the CRC16 low
byte then high byte; the receive-side CRC validation in `transfer`
accepts this frame (recomputing the CRC over all bytes except the last
two and comparing to the trailing little-endian CRC), and the region it
validates — everything before the CRC trailer — is exactly the original
address/function-code/payload bytes. -/
theorem crc_roundTrip (s f : Nat) (p : List Nat)
    (hs : s < 256) (hf : f < 256) (hp : ∀ b ∈ p, b < 256) :
    buildFrame s f p =
      (s :: f :: p) ++ [crc16 (s :: f :: p) &&& 255, crc16 (s :: f :: p) >>> 8 &&& 255] ∧
    validateResponse (buildFrame s f p) = .ok (buildFrame s f p) ∧
    (buildFrame s f p).take ((buildFrame s f p).length - 2) = s :: f :: p := by
  have hbf := buildFrame_eq_of_bytes s f p hs hf hp
  refine ⟨hbf, validate_buildFrame s f p, ?_⟩
  rw [hbf]
  have hlen : ((s :: f :: p) ++
      [crc16 (s :: f :: p) &&& 255, crc16 (s :: f :: p) >>> 8 &&& 255]).length
      = (s :: f :: p).length + 2 := by simp
  rw [hlen, Nat.add_sub_cancel]
  exact List.take_left _ _

/-- Witness for C1 at the concrete frame `buildFrame 1 4 [0, 0, 0, 16]`
(the read request the app sends for its 16 channels). -/
theorem crc_roundTrip_witness :
    validateResponse (buildFrame 1 4 [0, 0, 0, 16]) = .ok (buildFrame 1 4 [0, 0, 0, 16]) ∧
    (buildFrame 1 4 [0, 0, 0, 16]).take ((buildFrame 1 4 [0, 0, 0, 16]).length - 2)
      = 1 :: 4 :: [0, 0, 0, 16] :=
  ⟨(crc_roundTrip 1 4 [0, 0, 0, 16] (by decide) (by decide) (by decide)).2.1,
   (crc_roundTrip 1 4 [0, 0, 0, 16] (by decide) (by decide) (by decide)).2.2⟩

/-! ### Read-loop and transfer inversion lemmas -/

theorem readLoop_complete_length (expected : Nat) :
    ∀ (evs : List ReadEvent) (tNow : Nat) (buffer : List Nat) (r : List Nat),
      readLoop expected evs tNow buffer = .complete r →
      r.length = expected ∧ expected ≤ buffer.length + totalReadBytes evs := by
  intro evs
  induction evs with
  | nil =>
      intro tNow buffer r h
      rw [readLoop] at h
      split at h
      · simp only [ReadOutcome.complete.injEq] at h
        subst h
        constructor
        · simp only [List.length_take]; omega
        · simpa [totalReadBytes] using ‹expected ≤ buffer.length›
      · split at h <;> simp_all
  | cons e rest ih =>
      intro tNow buffer r h
      rw [readLoop] at h
      split at h
      · simp only [ReadOutcome.complete.injEq] at h
        subst h
        refine ⟨by simp only [List.length_take]; omega, by omega⟩
      · split at h
        · exact absurd h (by simp)
        · cases hc : e.chunk with
          | none => rw [hc] at h; exact absurd h (by simp)
          | some bytes =>
              rw [hc] at h
              have hih := ih e.time (buffer ++ bytes) r h
              refine ⟨hih.1, ?_⟩
              have h2 := hih.2
              simp only [List.length_append] at h2
              simp only [totalReadBytes, List.map_cons, List.sum_cons, hc, Option.getD_some]
              simp only [totalReadBytes] at h2
              omega

theorem except_bind_ok {ε α β : Type} (x : Except ε α) (f : α → Except ε β) (b : β)
    (h : (x >>= f) = .ok b) : ∃ a, x = .ok a ∧ f a = .ok b := by
  cases x with
  | error e => exact Except.noConfusion (show Except.error e = Except.ok b from h)
  | ok a => exact ⟨a, rfl, h⟩

theorem validateResponse_ok_eq (r resp : List Nat) (h : validateResponse r = .ok resp) :
    resp = r := by
  unfold validateResponse at h
  split at h
  · cases h
  · dsimp only at h
    split at h
    · cases h
    · exact (Except.ok.injEq _ _ ▸ h).symm

theorem transfer_ok_inv (connected : Bool) (frame : List Nat) (expected : Nat)
    (evs : List ReadEvent) (resp : List Nat)
    (h : transfer connected frame expected evs = .ok resp) :
    readLoop expected evs 0 [] = .complete resp := by
  unfold transfer at h
  split at h
  · cases h
  · cases hl : readLoop expected evs 0 [] with
    | complete bytes =>
        rw [hl] at h
        rw [validateResponse_ok_eq bytes resp h]
    | timeout => rw [hl] at h; cases h
    | streamClosed => rw [hl] at h; cases h
    | blocked => rw [hl] at h; cases h

/-! ### Claim C4 -/

/-- C4 (amended): any successful `transfer` returns exactly the expected
number of bytes, so a read of `count` registers can never produce a
partially filled result: if the device delivers fewer than
`5 + count * 2` bytes in total, `readInputRegisters` does not succeed;
with 14 registers' worth of bytes (33 of the expected 37) delivered and
a read resolving after the 1000 ms window, the exchange fails with
`Timeout` — not `ShortResponse`, which can only arise when the expected
length itself is below 3 bytes. -/
theorem shortDevice_no_partial_result :
    (∀ (connected : Bool) (frame : List Nat) (expected : Nat) (evs : List ReadEvent)
        (resp : List Nat), transfer connected frame expected evs = .ok resp →
        resp.length = expected) ∧
    (∀ (slave start count : Nat) (evs : List ReadEvent),
        totalReadBytes evs < 5 + count * 2 →
        ∀ vals, readInputRegisters slave true start count evs ≠ .ok vals) ∧
    readInputRegisters 1 true 0 16 [⟨5, some (List.replicate 33 0)⟩, ⟨1200, some []⟩]
      = .error .timeout := by
  refine ⟨?_, ?_, by set_option maxRecDepth 4000 in decide⟩
  · intro connected frame expected evs resp h
    exact (readLoop_complete_length expected evs 0 [] resp (transfer_ok_inv _ _ _ _ _ h)).1
  · intro slave start count evs hshort vals hok
    unfold readInputRegisters at hok
    obtain ⟨resp, htr, -⟩ := except_bind_ok _ _ _ hok
    have hle := (readLoop_complete_length _ evs 0 [] resp (transfer_ok_inv _ _ _ _ _ htr)).2
    simp only [List.length_nil, Nat.zero_add] at hle
    omega

/-- Witness for C4: a complete 4-byte exchange returns exactly 4 bytes,
and a device that delivers nothing makes a 3-register read fail. -/
theorem shortDevice_no_partial_result_witness :
    (buildFrame 1 4 []).length = 4 ∧ readInputRegisters 1 true 0 3 [] ≠ .ok [] :=
  ⟨shortDevice_no_partial_result.1 true [] 4 [⟨0, some (buildFrame 1 4 [])⟩]
      (buildFrame 1 4 []) (by set_option maxRecDepth 4000 in decide),
   shortDevice_no_partial_result.2.1 1 0 3 [] (by decide) []⟩

/-- Counterexample for C4 as stated: for a 16-register read against a
device returning only 14 registers' worth of bytes (33 bytes, then an
empty read resolving after the window), `readInputRegisters` fails with
`Timeout`, not `ShortResponse`. -/
theorem shortDevice_counterexample :
    readInputRegisters 1 true 0 16 [⟨5, some (List.replicate 33 0)⟩, ⟨1200, some []⟩]
      = .error .timeout ∧ MbError.timeout ≠ MbError.shortResponse := by
  exact ⟨by set_option maxRecDepth 4000 in decide, by decide⟩

/-! ### Claim C6 -/

/-- C6 (amended): the 1000 ms deadline is only examined at the top of
each read iteration.  An iteration beginning after the deadline with
bytes still missing fails with `Timeout`; a wait whose reads never
resolve blocks indefinitely rather than timing out; and an exchange
whose missing bytes are delivered by a single read resolving after the
window succeeds — here a 37-byte response split 33/4 with the tail
arriving at 5000 ms yields the decoded registers, not `Timeout`. -/
theorem timeout_loop_behaviour :
    (∀ (expected tNow : Nat) (buffer : List Nat) (evs : List ReadEvent),
        buffer.length < expected → 1000 < tNow →
        readLoop expected evs tNow buffer = .timeout) ∧
    (∀ (expected tNow : Nat) (buffer : List Nat),
        buffer.length < expected → tNow ≤ 1000 →
        readLoop expected [] tNow buffer = .blocked) ∧
    readInputRegisters 1 true 0 16
      [⟨5, some ((buildFrame 1 4 (32 :: List.replicate 32 0)).take 33)⟩,
       ⟨5000, some ((buildFrame 1 4 (32 :: List.replicate 32 0)).drop 33)⟩]
      = .ok (List.replicate 16 0) := by
  refine ⟨?_, ?_, by set_option maxRecDepth 8000 in decide⟩
  · intro expected tNow buffer evs hlen htime
    rw [readLoop.eq_def]
    dsimp only
    rw [if_neg (by omega), if_pos htime]
  · intro expected tNow buffer hlen htime
    rw [readLoop.eq_def]
    dsimp only
    rw [if_neg (by omega), if_neg (by omega)]

/-- Witness for C6 at concrete loop states: a late iteration with two of
five bytes times out; a silent device leaves the wait blocked. -/
theorem timeout_loop_behaviour_witness :
    readLoop 5 [⟨2000, some [0, 0, 0]⟩] 1200 [0, 0] = .timeout ∧
    readLoop 5 [] 0 [] = .blocked :=
  ⟨timeout_loop_behaviour.1 5 1200 [0, 0] [⟨2000, some [0, 0, 0]⟩] (by decide) (by decide),
   timeout_loop_behaviour.2.1 5 0 [] (by decide) (by decide)⟩

/-- Counterexample for C6 as stated: the full 37-byte response is only
assembled at 5000 ms — far outside the 1000 ms window — yet the read
succeeds with the decoded registers instead of failing with `Timeout`. -/
theorem timeout_late_success_counterexample :
    readInputRegisters 1 true 0 16
      [⟨5, some ((buildFrame 1 4 (32 :: List.replicate 32 0)).take 33)⟩,
       ⟨5000, some ((buildFrame 1 4 (32 :: List.replicate 32 0)).drop 33)⟩]
      = .ok (List.replicate 16 0) ∧ (1000 : Nat) < 5000 := by
  exact ⟨by set_option maxRecDepth 8000 in decide, by decide⟩

/-! ### Decoding lemmas for claim C10 -/

theorem getD_append_left (l₁ l₂ : List Nat) (n : Nat) (d : Nat) (h : n < l₁.length) :
    (l₁ ++ l₂).getD n d = l₁.getD n d := by
  simp [List.getD_eq_getElem?_getD, List.getElem?_append_left h]

theorem mapM_ok_of_forall (l : List Nat) (f : Nat → Except MbError Int) (g : Nat → Int)
    (h : ∀ a ∈ l, f a = .ok (g a)) : l.mapM f = .ok (l.map g) := by
  induction l with
  | nil => rfl
  | cons a t ih =>
      rw [List.mapM_cons, h a (by simp), ih (fun x hx => h x (by simp [hx]))]
      rfl

theorem mapM_error_of_mem (l₁ l₂ : List Nat) (x : Nat) (f : Nat → Except MbError Int)
    (e : MbError) (h₁ : ∀ a ∈ l₁, ∃ b, f a = .ok b) (hx : f x = .error e) :
    (l₁ ++ x :: l₂).mapM f = .error e := by
  induction l₁ with
  | nil =>
      rw [List.nil_append, List.mapM_cons, hx]
      rfl
  | cons a t ih =>
      obtain ⟨b, hb⟩ := h₁ a (by simp)
      rw [List.cons_append, List.mapM_cons, hb, ih (fun y hy => h₁ y (by simp [hy]))]
      rfl

theorem transfer_single_full (frame resp : List Nat) (expected : Nat)
    (hexp : 0 < expected) (hlen : resp.length = expected) :
    transfer true frame expected [⟨0, some resp⟩] = validateResponse resp := by
  unfold transfer
  rw [if_neg (by simp)]
  have h1 : readLoop expected [⟨0, some resp⟩] 0 [] = .complete resp := by
    rw [readLoop]
    rw [if_neg (by simp; omega), if_neg (by omega)]
    dsimp only
    rw [readLoop]
    rw [if_pos (by simp [hlen])]
    simp [hlen]
  rw [h1]

/-! ### Claim C10 -/

/-- C10: the number of registers returned by `readInputRegisters` is
driven by the response's declared byte-count field (byte index 2), not
by the `count` argument.  For a CRC-valid response declaring byte count
`d` over a data region of `2 * count` bytes: whenever `d ≤ 2*count + 2`
the call succeeds with `⌈d/2⌉` entries, each decoded big-endian
two's-complement from offset `3 + 2*i`; in particular `d = 2*count`
yields exactly `count` entries decoding the data region, while any
other declared count yields a different number of entries with no
protocol error for the mismatch — and over-declaring by more than one
register (`d ≥ 2*count + 3`) runs the decode loop out of the response's
bounds, a `RangeError`, not a protocol error. -/
theorem readInputRegisters_byteCount_driven (slave start count d : Nat) (data : List Nat)
    (hs : slave < 256) (hd : d < 256) (hdata : ∀ b ∈ data, b < 256)
    (hlen : data.length = 2 * count) :
    (d ≤ 2 * count + 2 →
      readInputRegisters slave true start count [⟨0, some (buildFrame slave 4 (d :: data))⟩]
        = .ok ((List.range ((d + 1) / 2)).map
            (fun i => int16OfBytes ((buildFrame slave 4 (d :: data)).getD (3 + 2 * i) 0)
              ((buildFrame slave 4 (d :: data)).getD (3 + 2 * i + 1) 0))) ∧
      ((List.range ((d + 1) / 2)).map
            (fun i => int16OfBytes ((buildFrame slave 4 (d :: data)).getD (3 + 2 * i) 0)
              ((buildFrame slave 4 (d :: data)).getD (3 + 2 * i + 1) 0))).length
        = (d + 1) / 2) ∧
    (d = 2 * count →
      readInputRegisters slave true start count [⟨0, some (buildFrame slave 4 (d :: data))⟩]
        = .ok (decodeRegisters data count)) ∧
    (2 * count + 3 ≤ d →
      readInputRegisters slave true start count [⟨0, some (buildFrame slave 4 (d :: data))⟩]
        = .error .rangeError) := by
  set resp := buildFrame slave 4 (d :: data) with hrespdef
  have hpay : ∀ b ∈ d :: data, b < 256 := by
    intro b hb
    rcases List.mem_cons.mp hb with rfl | hb
    · exact hd
    · exact hdata b hb
  have hresp : resp = (slave :: 4 :: d :: data) ++
      [crc16 (slave :: 4 :: d :: data) &&& 255, crc16 (slave :: 4 :: d :: data) >>> 8 &&& 255] :=
    buildFrame_eq_of_bytes slave 4 (d :: data) hs (by norm_num) hpay
  have hresplen : resp.length = 5 + count * 2 := by
    rw [hresp]
    simp [hlen]
    omega
  have htr : transfer true
      (buildFrame slave 4 [start >>> 8, start &&& 255, count >>> 8, count &&& 255])
      (5 + count * 2) [⟨0, some resp⟩] = .ok resp := by
    rw [transfer_single_full _ resp (5 + count * 2) (by omega) hresplen]
    exact validate_buildFrame slave 4 (d :: data)
  have hbc : resp.getD 2 0 = d := by
    rw [hresp]
    rfl
  have hread : readInputRegisters slave true start count [⟨0, some resp⟩]
      = (List.range ((d + 1) / 2)).mapM (fun i => getInt16 resp (3 + 2 * i)) := by
    unfold readInputRegisters
    dsimp only
    rw [htr]
    show (List.range ((resp.getD 2 0 + 1) / 2)).mapM (fun i => getInt16 resp (3 + 2 * i))
      = (List.range ((d + 1) / 2)).mapM (fun i => getInt16 resp (3 + 2 * i))
    rw [hbc]
  have hgetOk : ∀ i, 3 + 2 * i + 1 < 5 + count * 2 →
      getInt16 resp (3 + 2 * i) = .ok (int16OfBytes (resp.getD (3 + 2 * i) 0)
        (resp.getD (3 + 2 * i + 1) 0)) := by
    intro i hi
    unfold getInt16 int16OfBytes
    rw [if_pos (by omega : 3 + 2 * i + 1 < resp.length)]
  refine ⟨?_, ?_, ?_⟩
  · intro hle
    constructor
    · rw [hread]
      apply mapM_ok_of_forall
      intro i hi
      have hilt : i < (d + 1) / 2 := List.mem_range.mp hi
      exact hgetOk i (by omega)
    · simp
  · intro hdeq
    subst hdeq
    rw [hread]
    have hhalf : (2 * count + 1) / 2 = count := by omega
    rw [hhalf]
    have hvals : ∀ i ∈ List.range count,
        getInt16 resp (3 + 2 * i) = .ok (int16OfBytes (data.getD (2 * i) 0)
          (data.getD (2 * i + 1) 0)) := by
      intro i hi
      have hilt : i < count := List.mem_range.mp hi
      have hhi : resp.getD (3 + 2 * i) 0 = data.getD (2 * i) 0 := by
        rw [hresp]
        have h3 : 3 + 2 * i = (2 * i) + 1 + 1 + 1 := by omega
        rw [h3, List.cons_append, List.cons_append, List.cons_append,
          List.getD_cons_succ, List.getD_cons_succ, List.getD_cons_succ]
        exact getD_append_left data _ (2 * i) 0 (by omega)
      have hlo : resp.getD (3 + 2 * i + 1) 0 = data.getD (2 * i + 1) 0 := by
        rw [hresp]
        have h3 : 3 + 2 * i + 1 = (2 * i + 1) + 1 + 1 + 1 := by omega
        rw [h3, List.cons_append, List.cons_append, List.cons_append,
          List.getD_cons_succ, List.getD_cons_succ, List.getD_cons_succ]
        exact getD_append_left data _ (2 * i + 1) 0 (by omega)
      rw [hgetOk i (by omega), hhi, hlo]
    rw [mapM_ok_of_forall _ _ _ hvals]
    rfl
  · intro hge
    rw [hread]
    have hsplit : List.range ((d + 1) / 2) = List.range (count + 1) ++ (count + 1) ::
        ((List.range ((d + 1) / 2 - (count + 2))).map ((count + 2) + ·)) := by
      have hn : (d + 1) / 2 = (count + 2) + ((d + 1) / 2 - (count + 2)) := by omega
      have h2 : List.range (count + 2) = List.range (count + 1) ++ [count + 1] :=
        List.range_succ (count + 1)
      conv_lhs => rw [hn, List.range_add, h2]
      rw [List.append_assoc]
      rfl
    rw [hsplit]
    apply mapM_error_of_mem
    · intro a ha
      have halt : a < count + 1 := List.mem_range.mp ha
      exact ⟨_, hgetOk a (by omega)⟩
    · unfold getInt16
      rw [if_neg (by omega : ¬ (3 + 2 * (count + 1) + 1 < resp.length))]

/-- Witness for C10 with two channels: a device declaring byte count 2
(one register) yields one entry, byte count 4 yields the two decoded
registers, byte count 7 overruns the response and fails with
`RangeError`. -/
theorem readInputRegisters_byteCount_driven_witness :
    readInputRegisters 1 true 0 2 [⟨0, some (buildFrame 1 4 (2 :: [0, 1, 0, 2]))⟩]
      = .ok [1] ∧
    readInputRegisters 1 true 0 2 [⟨0, some (buildFrame 1 4 (4 :: [0, 1, 0, 2]))⟩]
      = .ok [1, 2] ∧
    readInputRegisters 1 true 0 2 [⟨0, some (buildFrame 1 4 (7 :: [0, 1, 0, 2]))⟩]
      = .error .rangeError := by
  refine ⟨?_, ?_, ?_⟩
  · have h := (readInputRegisters_byteCount_driven 1 0 2 2 [0, 1, 0, 2]
      (by decide) (by decide) (by decide) (by decide)).1 (by decide)
    rw [h.1]
    decide
  · have h := (readInputRegisters_byteCount_driven 1 0 2 4 [0, 1, 0, 2]
      (by decide) (by decide) (by decide) (by decide)).2.1 (by decide)
    rw [h]
    decide
  · exact (readInputRegisters_byteCount_driven 1 0 2 7 [0, 1, 0, 2]
      (by decide) (by decide) (by decide) (by decide)).2.2 (by decide)

/-! ### Claim C5 -/

theorem flatMap_congr_fn {f g : Int → List Nat} (l : List Int) (h : ∀ a ∈ l, f a = g a) :
    l.flatMap f = l.flatMap g := by
  induction l with
  | nil => rfl
  | cons a t ih =>
      rw [List.flatMap_cons, List.flatMap_cons, h a (by simp),
        ih (fun x hx => h x (by simp [hx]))]

/-- C5: `writeMultipleHoldingRegisters` rejects with a precondition
error — before any frame is built or written, and uniformly in the
device's behaviour — whenever the values list is empty or longer than
123 entries; for every accepted list, the frame it hands to the
transport is exactly the function-code-16 frame over the payload
`[startHi, startLo, countHi, countLo, byteCount]` followed by each
value reduced to its unsigned 16-bit residue (`value & 0xffff`, equal
to `value mod 2^16` for every integer, negatives included) as two
big-endian bytes, and the whole call is the 8-byte exchange of exactly
that frame. -/
theorem writeMultiple_precondition_and_frame :
    (∀ (slave start : Nat),
        writeMultipleRequest slave start [] = .error .precondition) ∧
    (∀ (slave : Nat) (connected : Bool) (start : Nat) (evs : List ReadEvent),
        writeMultipleHoldingRegisters slave connected start [] evs = .error .precondition) ∧
    (∀ (slave start : Nat) (values : List Int), 123 < values.length →
        writeMultipleRequest slave start values = .error .precondition) ∧
    (∀ (slave : Nat) (connected : Bool) (start : Nat) (values : List Int)
        (evs : List ReadEvent), 123 < values.length →
        writeMultipleHoldingRegisters slave connected start values evs
          = .error .precondition) ∧
    (∀ (slave start : Nat) (values : List Int), values ≠ [] → values.length ≤ 123 →
        writeMultipleRequest slave start values
          = .ok (buildFrame slave 16 (specWriteMultiplePayload start values))) ∧
    (∀ (slave : Nat) (connected : Bool) (start : Nat) (values : List Int)
        (evs : List ReadEvent), values ≠ [] → values.length ≤ 123 →
        writeMultipleHoldingRegisters slave connected start values evs =
          transfer connected (buildFrame slave 16 (specWriteMultiplePayload start values))
            8 evs) := by
  have hreq_gt : ∀ (slave start : Nat) (values : List Int), 123 < values.length →
      writeMultipleRequest slave start values = .error .precondition := by
    intro slave start values hgt
    unfold writeMultipleRequest
    rw [if_neg (by omega), if_pos hgt]
  have hreq_ok : ∀ (slave start : Nat) (values : List Int), values ≠ [] →
      values.length ≤ 123 →
      writeMultipleRequest slave start values
        = .ok (buildFrame slave 16 (specWriteMultiplePayload start values)) := by
    intro slave start values hne hle
    unfold writeMultipleRequest
    rw [if_neg (by simp [hne]), if_neg (by omega)]
    dsimp only
    have hpayload : [start >>> 8, start &&& 255, values.length >>> 8, values.length &&& 255,
          values.length * 2]
        ++ values.flatMap (fun value =>
            [(Int.land value 65535).toNat >>> 8, (Int.land value 65535).toNat &&& 255])
        = specWriteMultiplePayload start values := by
      unfold specWriteMultiplePayload
      rw [shiftRight8_eq_div, and255_eq_mod, shiftRight8_eq_div, and255_eq_mod]
      congr 1
      apply flatMap_congr_fn
      intro v _
      rw [int_land_65535, shiftRight8_eq_div, and255_eq_mod]
    rw [hpayload]
  refine ⟨fun slave start => rfl, fun slave connected start evs => rfl,
    hreq_gt, ?_, hreq_ok, ?_⟩
  · intro slave connected start values evs hgt
    unfold writeMultipleHoldingRegisters
    rw [hreq_gt slave start values hgt]
  · intro slave connected start values evs hne hle
    unfold writeMultipleHoldingRegisters
    rw [hreq_ok slave start values hne hle]

/-- Witness for C5: the empty list and a 124-entry list are rejected;
the accepted write of `[-1, 2]` at start address 5 constructs exactly
the function-code-16 frame whose payload masks `-1` to the two bytes
`0xFF 0xFF` — concretely `[0, 5, 0, 2, 4, 255, 255, 0, 2]` — and the
call is the 8-byte exchange of that frame. -/
theorem writeMultiple_precondition_and_frame_witness :
    writeMultipleHoldingRegisters 1 true 0 [] [] = .error .precondition ∧
    writeMultipleHoldingRegisters 1 true 0 (List.replicate 124 0) [] = .error .precondition ∧
    writeMultipleRequest 1 5 [-1, 2]
      = .ok (buildFrame 1 16 (specWriteMultiplePayload 5 [-1, 2])) ∧
    specWriteMultiplePayload 5 [-1, 2] = [0, 5, 0, 2, 4, 255, 255, 0, 2] ∧
    writeMultipleHoldingRegisters 1 true 5 [-1, 2] [] =
      transfer true (buildFrame 1 16 (specWriteMultiplePayload 5 [-1, 2])) 8 [] :=
  ⟨writeMultiple_precondition_and_frame.2.1 1 true 0 [],
   writeMultiple_precondition_and_frame.2.2.2.1 1 true 0 (List.replicate 124 0) []
     (by simp),
   writeMultiple_precondition_and_frame.2.2.2.2.1 1 5 [-1, 2] (by decide) (by decide),
   by decide,
   writeMultiple_precondition_and_frame.2.2.2.2.2 1 true 5 [-1, 2] [] (by decide)
     (by decide)⟩

/-! ### Claim C8 -/

/-- C8: the calibration transform is the quadratic
`a·raw² + b·raw + c`, total and deterministic (it is a pure function of
its arguments), and the identity default `(0, 1, 0)` returns every raw
value unchanged. -/
theorem aiToPhysical_quadratic_and_identity (raw : ℚ) (cal : AiCalibration) :
    aiToPhysical raw cal = cal.a * raw ^ 2 + cal.b * raw + cal.c ∧
    aiToPhysical raw defaultAiCalibration = raw := by
  constructor
  · unfold aiToPhysical
    ring
  · unfold aiToPhysical defaultAiCalibration
    ring

/-! ### Claim C9 -/

/-- C9: for every channel count and every persisted calibration value —
missing or malformed data included — loading returns exactly
`channelCount` entries, and entry `i` is the persisted entry at `i` when
one is present, the identity default otherwise; the operation is total,
and partial persisted data degrades per-channel, not wholesale. -/
theorem loadAiCalibration_per_channel (n : Nat)
    (raw : Option (List (Option AiCalibration))) (i : Nat) (h : i < n) :
    (loadAiCalibration n raw).length = n ∧
    (loadAiCalibration n raw).getD i defaultAiCalibration
      = (persistedAt raw i).getD defaultAiCalibration := by
  constructor
  · unfold loadAiCalibration
    cases raw <;> simp
  · unfold loadAiCalibration persistedAt
    cases raw with
    | none =>
        simp only [Option.bind]
        rw [List.getD_eq_getElem?_getD, List.getElem?_replicate]
        simp [h]
    | some arr =>
        simp only [Option.bind]
        rw [List.getD_eq_getElem?_getD]
        rw [List.getElem?_map, List.getElem?_range h]
        rfl

/-- Witness for C9 with three channels and a two-entry persisted set
holding one real entry and one null: channel 0 keeps its persisted
coefficients, channels 1 and 2 fall back to the identity default. -/
theorem loadAiCalibration_per_channel_witness :
    (loadAiCalibration 3 (some [some ⟨2, 3, 4⟩, none])).length = 3 ∧
    (loadAiCalibration 3 (some [some ⟨2, 3, 4⟩, none])).getD 0 defaultAiCalibration
      = ⟨2, 3, 4⟩ ∧
    (loadAiCalibration 3 (some [some ⟨2, 3, 4⟩, none])).getD 1 defaultAiCalibration
      = defaultAiCalibration ∧
    (loadAiCalibration 3 (some [some ⟨2, 3, 4⟩, none])).getD 2 defaultAiCalibration
      = defaultAiCalibration :=
  ⟨(loadAiCalibration_per_channel 3 (some [some ⟨2, 3, 4⟩, none]) 0 (by norm_num)).1,
   by rw [(loadAiCalibration_per_channel 3 (some [some ⟨2, 3, 4⟩, none]) 0 (by norm_num)).2]
      rfl,
   by rw [(loadAiCalibration_per_channel 3 (some [some ⟨2, 3, 4⟩, none]) 1 (by norm_num)).2]
      rfl,
   by rw [(loadAiCalibration_per_channel 3 (some [some ⟨2, 3, 4⟩, none]) 2 (by norm_num)).2]
      rfl⟩

/-! ### Retention lemmas (policy B) -/

theorem keepLatestPoints_eq_drop (m : Nat) (l : List α) :
    keepLatestPoints m l = l.drop (l.length - m) := by
  unfold keepLatestPoints
  split
  · have h0 : l.length - m = 0 := by omega
    rw [h0, List.drop_zero]
  · rfl

theorem drop_suffix_absorb (m : Nat) (t rest : List α) :
    (t.drop (t.length - m) ++ rest).drop (t.length - (t.length - m) + rest.length - m)
      = (t ++ rest).drop (t.length + rest.length - m) := by
  rw [List.drop_append_eq_append_drop, List.drop_append_eq_append_drop, List.drop_drop,
    List.length_drop]
  congr 1
  · congr 1
    omega
  · congr 1
    omega

theorem foldl_keepLatest (m : Nat) : ∀ (pts store : List α), store.length ≤ m →
    pts.foldl (fun s p => keepLatestPoints m (s ++ [p])) store
      = (store ++ pts).drop (store.length + pts.length - m) := by
  intro pts
  induction pts with
  | nil =>
      intro store hs
      simp only [List.foldl_nil, List.append_nil, List.length_nil, Nat.add_zero]
      have h0 : store.length - m = 0 := by omega
      rw [h0, List.drop_zero]
  | cons p rest ih =>
      intro store hs
      rw [List.foldl_cons, keepLatestPoints_eq_drop]
      have hs2 : ((store ++ [p]).drop ((store ++ [p]).length - m)).length ≤ m := by
        rw [List.length_drop]
        omega
      rw [ih _ hs2, List.length_drop]
      rw [drop_suffix_absorb m (store ++ [p]) rest]
      rw [List.append_assoc]
      have hsing : [p] ++ rest = p :: rest := rfl
      rw [hsing]
      congr 1
      simp
      omega

theorem runPolicyB_eq_drop (pts : List α) :
    runPolicyB pts = pts.drop (pts.length - MAX_POINTS_IN_MEMORY) := by
  unfold runPolicyB
  have hstep : (fun (store : List α) (p : α) => updateDataHistoryStep false store p)
      = fun store p => keepLatestPoints MAX_POINTS_IN_MEMORY (store ++ [p]) := by
    funext store p
    rfl
  rw [hstep]
  have h := foldl_keepLatest MAX_POINTS_IN_MEMORY pts [] (by simp)
  simpa using h

/-! ### Claim C3 -/

/-- C3 (amended): with no recording active, each append is followed by
`keepLatestPoints(MAX_POINTS_IN_MEMORY)` with
`MAX_POINTS_IN_MEMORY = 1024` — not 512.  Appending any sequence to an
initially empty store therefore leaves exactly the most recent 1024
points (all of them when fewer), in original insertion order, with no
decimation; so 600 appended points are all retained. -/
theorem policyB_keeps_latest_1024 (pts : List α) :
    runPolicyB pts = pts.drop (pts.length - 1024) ∧
    (runPolicyB pts).length = min pts.length 1024 := by
  have h := runPolicyB_eq_drop pts
  unfold MAX_POINTS_IN_MEMORY at h
  refine ⟨h, ?_⟩
  rw [h, List.length_drop]
  omega

/-- Counterexample for C3 as stated: after appending 600 points while
not recording, the store still holds all 600 of them — not the most
recent 512. -/
theorem policyB_600_counterexample :
    runPolicyB (List.range 600) = List.range 600 ∧
    runPolicyB (List.range 600) ≠ (List.range 600).drop (600 - 512) := by
  have h := runPolicyB_eq_drop (List.range 600)
  rw [List.length_range] at h
  rw [show (600 - MAX_POINTS_IN_MEMORY : Nat) = 0 from rfl, List.drop_zero] at h
  refine ⟨h, ?_⟩
  rw [h]
  intro heq
  have hlen := congrArg List.length heq
  simp only [List.length_range, List.length_drop] at hlen
  omega

/-! ### Decimation lemmas (policy A) -/

theorem filter_enumFrom_skip (s : Nat) :
    ∀ (n : Nat) (l : List α) (k : Nat), (∀ i, i < n → (k + i) % s ≠ 0) →
      ((List.enumFrom k l).filter (fun p => p.1 % s == 0)).map Prod.snd
        = ((List.enumFrom (k + n) (l.drop n)).filter (fun p => p.1 % s == 0)).map Prod.snd := by
  intro n
  induction n with
  | zero => intro l k _; simp
  | succ m ih =>
      intro l k h
      cases l with
      | nil => simp
      | cons a t =>
          rw [List.enumFrom_cons, List.filter_cons]
          have hc : ¬ ((fun (p : Nat × α) => p.1 % s == 0) (k, a) = true) := by
            have := h 0 (by omega)
            simpa using this
          rw [if_neg hc]
          have hshift : ∀ i, i < m → (k + 1 + i) % s ≠ 0 := by
            intro i hi
            have hh := h (i + 1) (by omega)
            rw [show k + 1 + i = k + (i + 1) from by omega]
            exact hh
          rw [ih t (k + 1) hshift]
          rw [show k + 1 + m = k + (m + 1) from by omega]
          rw [List.drop_succ_cons]

theorem filter_enumFrom_period (s : Nat) :
    ∀ (l : List α) (k : Nat),
      ((List.enumFrom (k + s) l).filter (fun p => p.1 % s == 0)).map Prod.snd
        = ((List.enumFrom k l).filter (fun p => p.1 % s == 0)).map Prod.snd := by
  intro l
  induction l with
  | nil => intro k; simp
  | cons a t ih =>
      intro k
      rw [List.enumFrom_cons, List.enumFrom_cons, List.filter_cons, List.filter_cons]
      have hmod : (k + s) % s = k % s := Nat.add_mod_right k s
      have hsucc : k + s + 1 = (k + 1) + s := by omega
      by_cases hk : (k % s == 0) = true
      · rw [if_pos (by simpa [hmod] using hk), if_pos (by simpa using hk)]
        simp only [List.map_cons]
        rw [hsucc, ih (k + 1)]
      · rw [if_neg (by simpa [hmod] using hk), if_neg (by simpa using hk)]
        rw [hsucc, ih (k + 1)]

theorem filter_enum_eq_takeEvery_aux (s : Nat) (hs : 0 < s) :
    ∀ (n : Nat) (l : List α), l.length ≤ n →
      ((l.enum.filter (fun p => p.1 % s == 0)).map Prod.snd) = takeEvery s l := by
  intro n
  induction n with
  | zero =>
      intro l hl
      cases l with
      | nil => rw [takeEvery]; rfl
      | cons a t => simp at hl
  | succ m ih =>
      intro l hl
      cases l with
      | nil => rw [takeEvery]; rfl
      | cons a t =>
          rw [takeEvery]
          unfold List.enum
          rw [List.enumFrom_cons, List.filter_cons]
          rw [if_pos (by simp)]
          simp only [List.map_cons]
          congr 1
          have hskip : ∀ i, i < s - 1 → (1 + i) % s ≠ 0 := by
            intro i hi
            have h1 : 1 + i < s := by omega
            have := Nat.mod_eq_of_lt h1
            omega
          rw [filter_enumFrom_skip s (s - 1) t 1 hskip]
          rw [show 1 + (s - 1) = 0 + s from by omega]
          rw [filter_enumFrom_period s]
          have hlen : (t.drop (s - 1)).length ≤ m := by
            rw [List.length_drop]
            simp only [List.length_cons] at hl
            omega
          exact ih _ hlen

theorem filter_enum_eq_takeEvery (s : Nat) (hs : 0 < s) (l : List α) :
    ((l.enum.filter (fun p => p.1 % s == 0)).map Prod.snd) = takeEvery s l :=
  filter_enum_eq_takeEvery_aux s hs l.length l (Nat.le_refl _)

theorem takeEvery_sublist_aux (s : Nat) :
    ∀ (n : Nat) (l : List α), l.length ≤ n → (takeEvery s l).Sublist l := by
  intro n
  induction n with
  | zero =>
      intro l hl
      cases l with
      | nil => rw [takeEvery]
      | cons a t => simp at hl
  | succ m ih =>
      intro l hl
      cases l with
      | nil => rw [takeEvery]
      | cons a t =>
          rw [takeEvery]
          rw [List.cons_sublist_cons]
          refine List.Sublist.trans ?_ (List.drop_sublist (s - 1) t)
          have hlen : (t.drop (s - 1)).length ≤ m := by
            rw [List.length_drop]
            simp only [List.length_cons] at hl
            omega
          exact ih _ hlen

theorem takeEvery_sublist (s : Nat) (l : List α) : (takeEvery s l).Sublist l :=
  takeEvery_sublist_aux s l.length l (Nat.le_refl _)

theorem takeEvery_length_aux (s : Nat) (hs : 0 < s) :
    ∀ (n : Nat) (l : List α), l.length ≤ n →
      (takeEvery s l).length = (l.length + s - 1) / s := by
  intro n
  induction n with
  | zero =>
      intro l hl
      cases l with
      | nil =>
          rw [takeEvery]
          simp only [List.length_nil]
          rw [Nat.div_eq_of_lt (by omega)]
      | cons a t => simp at hl
  | succ m ih =>
      intro l hl
      cases l with
      | nil =>
          rw [takeEvery]
          simp only [List.length_nil]
          rw [Nat.div_eq_of_lt (by omega)]
      | cons a t =>
          rw [takeEvery]
          simp only [List.length_cons]
          have hlen : (t.drop (s - 1)).length ≤ m := by
            rw [List.length_drop]
            simp only [List.length_cons] at hl
            omega
          rw [ih _ hlen, List.length_drop]
          rcases Nat.lt_or_ge t.length (s - 1) with hcase | hcase
          · have h1 : t.length - (s - 1) = 0 := by omega
            have d1 : (0 + s - 1) / s = 0 := Nat.div_eq_of_lt (by omega)
            have d2 : t.length / s = 0 := Nat.div_eq_of_lt (by omega)
            have h2 : t.length + 1 + s - 1 = t.length + s := by omega
            have d3 : (t.length + s) / s = t.length / s + 1 := Nat.add_div_right _ hs
            rw [h1, d1, h2, d3, d2]
          · have h1 : t.length - (s - 1) + s - 1 = t.length := by omega
            have h2 : t.length + 1 + s - 1 = t.length + s := by omega
            have d3 : (t.length + s) / s = t.length / s + 1 := Nat.add_div_right _ hs
            rw [h1, h2, d3]

theorem takeEvery_length (s : Nat) (hs : 0 < s) (l : List α) :
    (takeEvery s l).length = (l.length + s - 1) / s :=
  takeEvery_length_aux s hs l.length l (Nat.le_refl _)

/-! ### Claim C2 -/

/-- C2 (amended): the display cap is `MAX_POINTS_IN_MEMORY = 1024`, not
512.  While recording, a stored sequence longer than 1024 points is
decimated to the points at indices divisible by
`stride = ⌈length / 1024⌉`: the output equals the every-`stride`-th
selection, has at most 1024 points, is an order-preserving
subsequence, and retains the first original point (the last original
point is kept only when the stride divides `length - 1`, which the
index-filter does not guarantee). -/
theorem updateChartData_decimates (pts : List α) (h : MAX_POINTS_IN_MEMORY < pts.length) :
    updateChartData true pts
      = takeEvery ((pts.length + (MAX_POINTS_IN_MEMORY - 1)) / MAX_POINTS_IN_MEMORY) pts ∧
    (updateChartData true pts).length ≤ MAX_POINTS_IN_MEMORY ∧
    (updateChartData true pts).Sublist pts ∧
    (updateChartData true pts).head? = pts.head? := by
  have hmax : MAX_POINTS_IN_MEMORY = 1024 := rfl
  have hspos : 0 < (pts.length + (MAX_POINTS_IN_MEMORY - 1)) / MAX_POINTS_IN_MEMORY := by
    apply Nat.div_pos <;> omega
  have hcode : updateChartData true pts = ((pts.enum.filter
      (fun p => p.1 % ((pts.length + (MAX_POINTS_IN_MEMORY - 1)) / MAX_POINTS_IN_MEMORY)
        == 0)).map Prod.snd) := by
    unfold updateChartData
    rw [if_neg (by simp), if_neg (by omega)]
  have heq : updateChartData true pts
      = takeEvery ((pts.length + (MAX_POINTS_IN_MEMORY - 1)) / MAX_POINTS_IN_MEMORY) pts :=
    hcode.trans (filter_enum_eq_takeEvery _ hspos pts)
  refine ⟨heq, ?_, ?_, ?_⟩
  · rw [heq, takeEvery_length _ hspos]
    set s := (pts.length + (MAX_POINTS_IN_MEMORY - 1)) / MAX_POINTS_IN_MEMORY with hsdef
    have hdm := Nat.div_add_mod (pts.length + (MAX_POINTS_IN_MEMORY - 1)) MAX_POINTS_IN_MEMORY
    have hmlt : (pts.length + (MAX_POINTS_IN_MEMORY - 1)) % MAX_POINTS_IN_MEMORY
        < MAX_POINTS_IN_MEMORY := Nat.mod_lt _ (by omega)
    rw [← hsdef] at hdm
    have hLs : pts.length ≤ MAX_POINTS_IN_MEMORY * s := by omega
    have hlt : (pts.length + s - 1) / s < MAX_POINTS_IN_MEMORY + 1 := by
      rw [Nat.div_lt_iff_lt_mul hspos]
      rw [hmax] at hLs ⊢
      omega
    omega
  · rw [heq]
    exact takeEvery_sublist _ pts
  · rw [heq]
    cases pts with
    | nil => simp at h
    | cons a t =>
        rw [takeEvery]
        rfl

/-- Witness for C2 at 1030 stored points (stride 2). -/
theorem updateChartData_decimates_witness :
    updateChartData true (List.range 1030)
      = takeEvery (((List.range 1030).length + (MAX_POINTS_IN_MEMORY - 1))
          / MAX_POINTS_IN_MEMORY) (List.range 1030) ∧
    (updateChartData true (List.range 1030)).length ≤ MAX_POINTS_IN_MEMORY ∧
    (updateChartData true (List.range 1030)).Sublist (List.range 1030) ∧
    (updateChartData true (List.range 1030)).head? = (List.range 1030).head? :=
  updateChartData_decimates (List.range 1030)
    (by rw [List.length_range]; norm_num [MAX_POINTS_IN_MEMORY])

/-- Counterexample for C2 as stated: at 1026 stored points (recording
active) the displayed decimation has 513 points — more than the claimed
512-point bound, because the cap is 1024 and the stride is
`⌈1026/1024⌉ = 2`, not `⌈1026/512⌉` — and its last point is the
original index 1024, so the last original point (1025) is not
retained. -/
theorem updateChartData_counterexample :
    (updateChartData true (List.range 1026)).length = 513 ∧
    ¬ (updateChartData true (List.range 1026)).length ≤ 512 ∧
    (updateChartData true (List.range 1026)).getLast? = some 1024 ∧
    (List.range 1026).getLast? = some 1025 := by
  refine ⟨?_, ?_, ?_, ?_⟩
  · set_option maxRecDepth 100000 in decide
  · set_option maxRecDepth 100000 in decide
  · set_option maxRecDepth 100000 in decide
  · set_option maxRecDepth 100000 in decide

/-! ### Claim C7 -/

/-- C7 (amended): a connection attempt that fails before the port is
opened — missing serial API, cancelled or failed `requestPort`, or a
failing `port.open` — leaves the app fully disconnected with no open
port; but when the port opens and its streams are unavailable, the
thrown error propagates while the opened port stays open and
unreferenced, because `handleConnect`'s catch-side cleanup only
disconnects a previously stored client and the failing client is never
stored in `clientRef`. -/
theorem handleConnect_failure_states :
    handleConnectModel .noSerialApi
      = { client := none, openPorts := 0, connected := false, acquiring := false,
          failed := true } ∧
    handleConnectModel .requestPortFails
      = { client := none, openPorts := 0, connected := false, acquiring := false,
          failed := true } ∧
    handleConnectModel .openFails
      = { client := none, openPorts := 0, connected := false, acquiring := false,
          failed := true } ∧
    handleConnectModel .streamsUnavailable
      = { client := none, openPorts := 1, connected := false, acquiring := false,
          failed := true } :=
  ⟨rfl, rfl, rfl, rfl⟩

/-- Counterexample for C7 as stated: in the streams-unavailable failure
the error propagates (`failed = true`) yet a port remains open
(`openPorts = 1 ≠ 0`) — the system is not left fully disconnected. -/
theorem handleConnect_leak_counterexample :
    (handleConnectModel .streamsUnavailable).failed = true ∧
    (handleConnectModel .streamsUnavailable).openPorts = 1 ∧
    (handleConnectModel .streamsUnavailable).openPorts ≠ 0 :=
  ⟨rfl, rfl, by decide⟩

end ModbusLogger
